import Mathlib

/-!
Shallow embedding of the availability/pricing engine of the
xpertmoto-bike-rent-helper dashboard (`AvailabilityTable.jsx` — the variant
with date filtering — and `dataFetcher.js`), together with theorems checking
the natural-language specification against it.

Conventions of the embedding:
* JS numbers used as prices are modelled as `ℚ` (the code only does
  `parseFloat`, `*`, `-`, `/` on them; `duration / 7` is real division);
* the `"default"` sentinel in a tier's `days`/`to` field is modelled as
  `none`, an integer value as `some n`;
* sparse JS objects used as maps (`bookings`, `disabledDatesGlobal`,
  `imageMap`) are association lists with `List.lookup`; a truthy booking
  value is `true`;
* a JS `Date` is a record of the fields the code reads: year, month
  (1-based), day of month, weekday (0 = Sunday .. 6 = Saturday);
* `Array.prototype.sort` (stable per the ECMAScript spec) is
  `List.mergeSort`; the numeric comparator `pA - pB` is the boolean
  order `pA ≤ pB`;
* fields never read by the modelled operations (`metafields`, raw JSON)
  are omitted.
-/

namespace XpertMoto

/-- One price tier of a bike (an element of `variantData.prices`):
`days` is `startDays` (`none` = the string `"default"`), `to` is `endDays`
(`none` = `"default"`), `price` is the listed tier price. -/
structure Tier where
  days : Option Int
  «to» : Option Int
  price : ℚ
deriving DecidableEq, Repr

/-- The fields of a JS `Date` that `getStatus` reads: `format(date,'yyyy')`,
`getMonth()+1`, `getDate()`, `getDay()`. -/
structure Date where
  year : Nat
  month : Nat
  day : Nat
  weekday : Nat
deriving DecidableEq, Repr

/-- `globalSettings` as produced by `extractGlobalSettings`:
`closures` is a list of weekday indices, `disabledDatesGlobal` maps a
4-digit year string to a map from an unpadded month string to a list of
days of the month. -/
structure GlobalSettings where
  closures : List Nat
  disabledDatesGlobal : List (String × List (String × List Nat))
deriving DecidableEq, Repr

/-- One fleet unit (a "bike" record as built by `extractBikeMetadata`).
`bookings = none` models the JS `undefined` (booking data absent). -/
structure Bike where
  handle : String
  productId : String
  variantId : String
  name : String
  stock : Nat
  imageUrl : Option String
  pricing : List Tier
  bookings : Option (List (String × Bool))
  isLoading : Bool
deriving DecidableEq, Repr

/-- The five cell statuses returned by `getStatus` (the JS strings
`'loading'`, `'booked'`, `'closed'`, `'half'`, `'available'`). -/
inductive Status where
  | loading
  | booked
  | closed
  | half
  | available
deriving DecidableEq, Repr

/-- Left-pad the decimal representation of `n` with zeros to width `w`
(the behaviour of date-fns format tokens `yyyy`, `MM`, `dd`). -/
def padNum (w : Nat) (n : Nat) : String :=
  let s := toString n
  String.mk (List.replicate (w - s.length) '0') ++ s

/-- `format(date, 'yyyy/MM/dd')` — the key shape of the booking map. -/
def dateKey (d : Date) : String :=
  padNum 4 d.year ++ "/" ++ padNum 2 d.month ++ "/" ++ padNum 2 d.day

/-- `format(date, 'yyyy-MM-dd')` — the key shape of the selected-dates
set used by the date filter. -/
def filterDateKey (d : Date) : String :=
  padNum 4 d.year ++ "-" ++ padNum 2 d.month ++ "-" ++ padNum 2 d.day

/-- Truthiness of `m[k]` for a sparse JS map modelled as an assoc list:
a missing key is falsy. -/
def lookupBool (m : List (String × Bool)) (k : String) : Bool :=
  (m.lookup k).getD false

/-- `globalSettings.disabledDatesGlobal[year]?.[month]?.includes(dayNumeric)`
with `year = format(date,'yyyy')` (zero-padded) and
`month = (date.getMonth()+1).toString()` (not padded). -/
def isHoliday (g : GlobalSettings) (date : Date) : Bool :=
  match g.disabledDatesGlobal.lookup (padNum 4 date.year) with
  | none => false
  | some months =>
    match months.lookup (toString date.month) with
    | none => false
    | some ds => ds.contains date.day

/-- `globalSettings.closures.includes(dayOfWeek) || isHoliday`. -/
def isStoreClosed (g : GlobalSettings) (date : Date) : Bool :=
  g.closures.contains date.weekday || isHoliday g date

/-- `bookings[k] || bookings[k + '_start'] || bookings[k + '_end']`. -/
def isBooked (m : List (String × Bool)) (k : String) : Bool :=
  lookupBool m k || lookupBool m (k ++ "_start") || lookupBool m (k ++ "_end")

/-- `getStatus(bike, date)` of `AvailabilityTable.jsx` (filtering variant):
loading short-circuit, then booked / closed / half / available in that
order. -/
def getStatus (g : GlobalSettings) (bike : Bike) (date : Date) : Status :=
  if bike.isLoading || bike.bookings.isNone then Status.loading
  else
    let yearMonthDay := dateKey date
    let bk := bike.bookings.getD []
    if isBooked bk yearMonthDay then Status.booked
    else if isStoreClosed g date then Status.closed
    else if date.weekday == 6 then Status.half
    else Status.available

/-- The predicate of `bike.pricing.find(...)` in `getPriceForDuration`:
a ranged tier (`days ≠ 'default'`) whose range contains the duration
(`to == 'default'` meaning no upper bound). -/
def tierMatches (d : Int) (p : Tier) : Bool :=
  match p.days with
  | none => false
  | some f =>
    decide (f ≤ d) &&
      (match p.«to» with
       | none => true
       | some t => decide (d ≤ t))

/-- `getPriceForDuration(bike, days)`: first matching ranged tier
(per-week rate when its start is ≥ 7, flat tier total otherwise), else
the first `'default'` tier as a daily rate, else 0.  A missing pricing
array is modelled as the empty list, so the source's two guards (absent
array, zero length) collapse into the one emptiness test.  The inner
`none` case mirrors JS `parseInt('default') ≥ 7` being false (NaN
comparison), which returns the tier price unchanged; it is unreachable
because the find predicate rejects default tiers. -/
def getPriceForDuration (bike : Bike) (d : Int) : ℚ :=
  if bike.pricing.isEmpty then 0
  else
    match bike.pricing.find? (tierMatches d) with
    | some tier =>
      match tier.days with
      | some tierStart =>
        if 7 ≤ tierStart then tier.price * (d : ℚ) / 7
        else tier.price
      | none => tier.price
    | none =>
      match bike.pricing.find? (fun p => p.days.isNone) with
      | some defaultTier => defaultTier.price * (d : ℚ)
      | none => 0

/-- The body of `dates.some(...)` in the date filter of `sortedBikes`:
some rendered date whose key is in the selected set has status
`available` or `half` for this bike. -/
def qualifiesOnSelectedDates (g : GlobalSettings) (dates : List Date)
    (selected : List String) (bike : Bike) : Bool :=
  dates.any fun date =>
    selected.contains (filterDateKey date) &&
      (getStatus g bike date == Status.available ||
       getStatus g bike date == Status.half)

/-- The filtering stage of `sortedBikes`: with a non-empty selection keep
the bikes with a qualifying selected date, otherwise keep all. -/
def filteredBikes (g : GlobalSettings) (bikes : List Bike) (dates : List Date)
    (selected : List String) : List Bike :=
  if selected.isEmpty then bikes
  else bikes.filter (qualifiesOnSelectedDates g dates selected)

/-- The sort comparator of `sortedBikes` as a boolean order: `a` may come
before `b`.  For `'asc'` the JS comparator `priceA - priceB` orders by
`priceA ≤ priceB`; for `'desc'` by `priceB ≤ priceA`; any other sort
order compares names (`localeCompare` modelled as string order). -/
def bikeLe (sortOrder : String) (duration : Int) (a b : Bike) : Bool :=
  if sortOrder == "asc" then
    decide (getPriceForDuration a duration ≤ getPriceForDuration b duration)
  else if sortOrder == "desc" then
    decide (getPriceForDuration b duration ≤ getPriceForDuration a duration)
  else decide (a.name ≤ b.name)

/-- `sortedBikes`: filter by selected dates, then stable-sort
(`Array.prototype.sort` is stable) by the comparator. -/
def sortedBikes (g : GlobalSettings) (bikes : List Bike) (dates : List Date)
    (selected : List String) (sortOrder : String) (duration : Int) : List Bike :=
  (filteredBikes g bikes dates selected).mergeSort (bikeLe sortOrder duration)

/-- The per-variant data read by `extractBikeMetadata` from
`metafields.variantStock[variantId]` (already-parsed form). -/
structure VariantData where
  prices : List Tier
  stock : Nat
deriving DecidableEq, Repr

/-- One product of `exampleData.data` after its `newMetafields.value`
JSON has been parsed: the fields `extractBikeMetadata` reads. -/
structure SrcProduct where
  handle : String
  id : String
  variants : List (String × VariantData)
deriving DecidableEq, Repr

/-- The global regex replace of every dash in `handle` by a space. -/
def replaceDashes (s : String) : String :=
  String.map (fun c => if c == '-' then ' ' else c) s

/-- JS `String.replace` with a string pattern replaces only the first
occurrence; removing it rejoins the remaining split pieces. -/
def removeFirstOcc (pat s : String) : String :=
  match s.splitOn pat with
  | [] => s
  | [x] => x
  | x :: rest => x ++ String.intercalate pat rest

/-- The displayed name: dashes to spaces, the first occurrence of
`" rental"` removed, then uppercased. -/
def bikeName (handle : String) : String :=
  String.map Char.toUpper (removeFirstOcc " rental" (replaceDashes handle))

/-- The bike record pushed by `extractBikeMetadata` for one variant:
`bookings` is `undefined` and `isLoading` is true until booking data
arrives. -/
def mkBike (imageMap : List (String × String)) (p : SrcProduct)
    (variantId : String) (vd : VariantData) : Bike :=
  { handle := p.handle
    productId := (p.id.splitOn "/").getLastD ""
    variantId := variantId
    name := bikeName p.handle
    stock := vd.stock
    imageUrl := imageMap.lookup p.handle
    pricing := vd.prices
    bookings := none
    isLoading := true }

/-- The inner `Object.entries(variants).forEach` of `extractBikeMetadata`:
skip the `'product'` entry and variant ids already in the seen set,
otherwise record the id as seen and push the bike.  The mutable
`seenVariantIds` set is threaded as an accumulator. -/
def extractVariants (imageMap : List (String × String)) (p : SrcProduct) :
    List String → List (String × VariantData) → List String × List Bike
  | seen, [] => (seen, [])
  | seen, (vid, vd) :: rest =>
    if vid == "product" then extractVariants imageMap p seen rest
    else if seen.contains vid then extractVariants imageMap p seen rest
    else
      let r := extractVariants imageMap p (vid :: seen) rest
      (r.1, mkBike imageMap p vid vd :: r.2)

/-- The outer `Object.entries(exampleData.data).forEach` of
`extractBikeMetadata`, threading the seen set across products. -/
def extractLoop (imageMap : List (String × String)) :
    List String → List SrcProduct → List Bike
  | _, [] => []
  | seen, p :: ps =>
    let r := extractVariants imageMap p seen p.variants
    r.2 ++ extractLoop imageMap r.1 ps

/-- `extractBikeMetadata(exampleData, imageMap)` restricted to the bike
list it returns (global settings are extracted separately). -/
def extractBikeMetadata (exampleProducts : List SrcProduct)
    (imageMap : List (String × String)) : List Bike :=
  extractLoop imageMap [] exampleProducts

/-- All eligible (non-`'product'`) variant entries of the source catalog
in source order, each paired with its product. -/
def flattenVariants (ps : List SrcProduct) : List (SrcProduct × String × VariantData) :=
  ps.flatMap fun p =>
    (p.variants.filter fun e => !(e.1 == "product")).map fun e => (p, e.1, e.2)

/-- First-occurrence deduplication over the flattened variant entries,
threading the seen set; `extractBikeMetadata` computes exactly this. -/
def dedupGo (imageMap : List (String × String)) :
    List String → List (SrcProduct × String × VariantData) → List String × List Bike
  | seen, [] => (seen, [])
  | seen, (p, vid, vd) :: rest =>
    if vid ∈ seen then dedupGo imageMap seen rest
    else
      let r := dedupGo imageMap (vid :: seen) rest
      (r.1, mkBike imageMap p vid vd :: r.2)

/-- Spec-level predicate (from the spec's words): the booking map contains
a truthy value at one of the keys `YYYY/MM/DD`, `YYYY/MM/DD_start`,
`YYYY/MM/DD_end` for the date. -/
def specBookedOn (m : List (String × Bool)) (date : Date) : Prop :=
  m.lookup (dateKey date) = some true ∨
  m.lookup (dateKey date ++ "_start") = some true ∨
  m.lookup (dateKey date ++ "_end") = some true

/-- Spec-level predicate (from the spec's words): the date's weekday is in
`weeklyClosureDays`, or its (year, month, day-of-month) matches an entry
of `holidayOverrides`. -/
def specClosedOn (g : GlobalSettings) (date : Date) : Prop :=
  date.weekday ∈ g.closures ∨
  ∃ months, g.disabledDatesGlobal.lookup (padNum 4 date.year) = some months ∧
    ∃ ds, months.lookup (toString date.month) = some ds ∧ date.day ∈ ds

/-- A concrete fleet unit used by the closed witness statements. -/
def demoBike (pricing : List Tier) (bookings : Option (List (String × Bool)))
    (isLoading : Bool) : Bike :=
  { handle := "yamaha-nmax155-rental", productId := "1", variantId := "v1",
    name := "YAMAHA NMAX155", stock := 1, imageUrl := none,
    pricing := pricing, bookings := bookings, isLoading := isLoading }

/-- A second concrete fleet unit, differing from `demoBike` only in its
identifier, for the stability witness. -/
def demoBike2 (pricing : List Tier) (bookings : Option (List (String × Bool)))
    (isLoading : Bool) : Bike :=
  { handle := "honda-cb125e-rental", productId := "2", variantId := "v2",
    name := "HONDA CB125E", stock := 1, imageUrl := none,
    pricing := pricing, bookings := bookings, isLoading := isLoading }

/-- A two-product catalog whose second product repeats variant id `v1`. -/
def srcP1 : SrcProduct :=
  ⟨"yamaha-nmax155-rental", "gid://shopify/Product/111",
    [("product", ⟨[], 1⟩), ("v1", ⟨[⟨some 1, some 6, 110⟩], 2⟩)]⟩

/-- The second product of the duplicate-id witness catalog. -/
def srcP2 : SrcProduct :=
  ⟨"honda-cb125e-rental", "gid://shopify/Product/222",
    [("v1", ⟨[], 1⟩), ("v2", ⟨[], 1⟩)]⟩

lemma find?_eq_get_of_first {α : Type} (p : α → Bool) (l : List α) (i : Nat)
    (hi : i < l.length) (h1 : p (l.get ⟨i, hi⟩) = true)
    (h2 : ∀ t ∈ l.take i, p t = false) :
    l.find? p = some (l.get ⟨i, hi⟩) := by
  induction l generalizing i with
  | nil => simp at hi
  | cons x xs ih =>
    cases i with
    | zero =>
      simpa using List.find?_cons_of_pos xs h1
    | succ k =>
      have hx : p x = false := h2 x (by simp [List.take_succ_cons])
      rw [List.find?_cons_of_neg xs (by simp [hx])]
      have hk : k < xs.length := Nat.lt_of_succ_lt_succ hi
      have h1k : p (xs.get ⟨k, hk⟩) = true := by simpa using h1
      have h2k : ∀ t ∈ xs.take k, p t = false := fun t ht =>
        h2 t (by simp [List.take_succ_cons, ht])
      simpa using ih k hk h1k h2k

lemma isEmpty_false_of_lt {α : Type} (l : List α) (i : Nat) (hi : i < l.length) :
    l.isEmpty = false := by
  cases l with
  | nil => simp at hi
  | cons x xs => simp

/-- C1: with a non-empty tier list and duration ≥ 1, the price scan picks
the first ranged tier containing the duration (position `i`, every earlier
tier failing the match); the result is the tier price times `duration / 7`
(rational division) when the tier's start is ≥ 7, and the tier price
unchanged when its start is < 7. -/
theorem getPriceForDuration_first_tier (bike : Bike) (d : Int) (i : Nat)
    (hd : 1 ≤ d) (hi : i < bike.pricing.length) (s : Int)
    (hs : (bike.pricing.get ⟨i, hi⟩).days = some s)
    (hmatch : tierMatches d (bike.pricing.get ⟨i, hi⟩) = true)
    (hfirst : ∀ t ∈ bike.pricing.take i, tierMatches d t = false) :
    getPriceForDuration bike d =
      if 7 ≤ s then (bike.pricing.get ⟨i, hi⟩).price * (d : ℚ) / 7
      else (bike.pricing.get ⟨i, hi⟩).price := by
  have hne := isEmpty_false_of_lt bike.pricing i hi
  have hf := find?_eq_get_of_first (tierMatches d) bike.pricing i hi hmatch hfirst
  simp only [getPriceForDuration, hne, Bool.false_eq_true, if_false, hf, hs]

theorem getPriceForDuration_first_tier_witness :
    getPriceForDuration (demoBike [⟨some 1, some 6, 110⟩, ⟨some 7, none, 160⟩] none true) 10 =
      160 * (10 : ℚ) / 7 := by
  rw [getPriceForDuration_first_tier
    (demoBike [⟨some 1, some 6, 110⟩, ⟨some 7, none, 160⟩] none true) 10 1
    (by norm_num) (by decide) 7 rfl (by decide) (by decide)]
  norm_num [demoBike]

/-- C5: when no ranged tier matches the duration, the price falls back to
the first tier whose `startDays` is the `'default'` sentinel (daily rate
times duration); with no matching and no default tier — in particular with
an empty or missing tier list — the price is 0.  The function is total, so
no exception can be raised. -/
theorem getPriceForDuration_fallback (bike : Bike) (d : Int) (hd : 1 ≤ d)
    (hno : ∀ t ∈ bike.pricing, tierMatches d t = false) :
    (bike.pricing = [] → getPriceForDuration bike d = 0) ∧
    (∀ i, ∀ hi : i < bike.pricing.length,
      (bike.pricing.get ⟨i, hi⟩).days = none →
      (∀ t ∈ bike.pricing.take i, t.days ≠ none) →
      getPriceForDuration bike d = (bike.pricing.get ⟨i, hi⟩).price * (d : ℚ)) ∧
    ((∀ t ∈ bike.pricing, t.days ≠ none) → getPriceForDuration bike d = 0) := by
  have hfind : bike.pricing.find? (tierMatches d) = none :=
    List.find?_eq_none.mpr fun x hx => by simp [hno x hx]
  refine ⟨fun hp => by simp [getPriceForDuration, hp], ?_, ?_⟩
  · intro i hi hdays hbefore
    have hne := isEmpty_false_of_lt bike.pricing i hi
    have hfd := find?_eq_get_of_first (fun p => p.days.isNone) bike.pricing i hi
      (by simp only [hdays]; rfl)
      (fun t ht => by
        cases h : t.days with
        | none => exact absurd h (hbefore t ht)
        | some v => simp [h])
    simp only [getPriceForDuration, hne, Bool.false_eq_true, if_false, hfind, hfd]
  · intro hnodef
    have hfd : bike.pricing.find? (fun p => p.days.isNone) = none :=
      List.find?_eq_none.mpr fun x hx => by simp [hnodef x hx]
    simp [getPriceForDuration, hfind, hfd]

theorem getPriceForDuration_fallback_witness :
    getPriceForDuration (demoBike [⟨none, none, 50⟩] none true) 3 = 50 * (3 : ℚ) :=
  (getPriceForDuration_fallback (demoBike [⟨none, none, 50⟩] none true) 3
    (by norm_num) (by decide)).2.1 0 (by decide) rfl (by decide)

/-- C9 counterexample: the claim promises a non-negative price for every
tier list, but a tier with a negative listed price is passed through
unchanged, so the computed total is negative. -/
theorem getPriceForDuration_neg_example :
    getPriceForDuration (demoBike [⟨some 1, some 6, -5⟩] none false) 1 < 0 := by
  norm_num [getPriceForDuration, demoBike, tierMatches, List.find?]

/-- C9 (amended): if every tier of the unit has a non-negative listed
price, the computed total price is non-negative for every duration ≥ 1. -/
theorem getPriceForDuration_nonneg (bike : Bike) (d : Int) (hd : 1 ≤ d)
    (hp : ∀ t ∈ bike.pricing, 0 ≤ t.price) :
    0 ≤ getPriceForDuration bike d := by
  have hdq : (0 : ℚ) ≤ (d : ℚ) := by
    have : (0 : Int) ≤ d := le_trans zero_le_one hd
    exact_mod_cast this
  cases he : bike.pricing.isEmpty with
  | true => simp [getPriceForDuration, he]
  | false =>
    cases hf : bike.pricing.find? (tierMatches d) with
    | some tier =>
      have h0 := hp tier (List.mem_of_find?_eq_some hf)
      cases hdys : tier.days with
      | some s =>
        simp only [getPriceForDuration, he, Bool.false_eq_true, if_false, hf, hdys]
        split
        · exact div_nonneg (mul_nonneg h0 hdq) (by norm_num)
        · exact h0
      | none =>
        simp only [getPriceForDuration, he, Bool.false_eq_true, if_false, hf, hdys]
        exact h0
    | none =>
      cases hfd : bike.pricing.find? (fun p => p.days.isNone) with
      | some dt =>
        have h0 := hp dt (List.mem_of_find?_eq_some hfd)
        simp only [getPriceForDuration, he, Bool.false_eq_true, if_false, hf, hfd]
        exact mul_nonneg h0 hdq
      | none =>
        simp [getPriceForDuration, he, hf, hfd]

lemma lookupBool_iff (m : List (String × Bool)) (k : String) :
    lookupBool m k = true ↔ m.lookup k = some true := by
  unfold lookupBool
  cases h : m.lookup k with
  | none => simp
  | some b => simp

lemma isBooked_iff (m : List (String × Bool)) (date : Date) :
    isBooked m (dateKey date) = true ↔ specBookedOn m date := by
  simp [isBooked, specBookedOn, lookupBool_iff, or_assoc]

lemma isHoliday_iff (g : GlobalSettings) (date : Date) :
    isHoliday g date = true ↔
      ∃ months, g.disabledDatesGlobal.lookup (padNum 4 date.year) = some months ∧
        ∃ ds, months.lookup (toString date.month) = some ds ∧ date.day ∈ ds := by
  unfold isHoliday
  cases h1 : g.disabledDatesGlobal.lookup (padNum 4 date.year) with
  | none => simp [h1]
  | some months =>
    cases h2 : months.lookup (toString date.month) with
    | none => simp [h2]
    | some ds => simp [h2]

lemma isStoreClosed_iff (g : GlobalSettings) (date : Date) :
    isStoreClosed g date = true ↔ specClosedOn g date := by
  simp [isStoreClosed, specClosedOn, isHoliday_iff]

lemma getStatus_eq_loading (g : GlobalSettings) (bike : Bike) (date : Date)
    (h : bike.isLoading = true ∨ bike.bookings = none) :
    getStatus g bike date = Status.loading := by
  rcases h with h | h <;> simp [getStatus, h]

/-- C3: a unit that is still loading, or whose booking data is absent,
classifies as the pending/loading status on every date, whatever the
booking map and global settings hold. -/
theorem getStatus_pending (g : GlobalSettings) (bike : Bike) (date : Date)
    (h : bike.isLoading = true ∨ bike.bookings = none) :
    getStatus g bike date = Status.loading :=
  getStatus_eq_loading g bike date h

theorem getStatus_pending_witness :
    getStatus ⟨[0], []⟩ (demoBike [] none true) ⟨2026, 2, 7, 6⟩ = Status.loading :=
  getStatus_pending ⟨[0], []⟩ (demoBike [] none true) ⟨2026, 2, 7, 6⟩ (Or.inl rfl)

/-- C2: with booking data present, the status is decided in the fixed
precedence order booked > closed > half > available, where closed means
weekday in `closures` or a holiday entry match, and half means Saturday
(weekday index 6) with nothing stronger applying. -/
theorem getStatus_precedence (g : GlobalSettings) (bike : Bike) (date : Date)
    (m : List (String × Bool)) (h1 : bike.isLoading = false)
    (h2 : bike.bookings = some m) :
    (getStatus g bike date = Status.booked ↔ specBookedOn m date) ∧
    (getStatus g bike date = Status.closed ↔
      ¬specBookedOn m date ∧ specClosedOn g date) ∧
    (getStatus g bike date = Status.half ↔
      ¬specBookedOn m date ∧ ¬specClosedOn g date ∧ date.weekday = 6) ∧
    (getStatus g bike date = Status.available ↔
      ¬specBookedOn m date ∧ ¬specClosedOn g date ∧ date.weekday ≠ 6) := by
  have hh : (date.weekday = 6) ↔ (date.weekday == 6) = true := by simp
  cases hB : isBooked m (dateKey date) <;>
    cases hC : isStoreClosed g date <;>
      cases hH : date.weekday == 6 <;>
        simp [getStatus, h1, h2, hB, hC, hH, ← isBooked_iff, ← isStoreClosed_iff, hh]

theorem getStatus_precedence_witness :
    getStatus ⟨[0], []⟩ (demoBike [] (some []) false) ⟨2026, 2, 8, 0⟩ = Status.closed :=
  ((getStatus_precedence ⟨[0], []⟩ (demoBike [] (some []) false) ⟨2026, 2, 8, 0⟩
    [] rfl rfl).2.1).mpr ⟨by simp [specBookedOn], Or.inl (by decide)⟩

/-- C4: with booking data present, a truthy booking value at any of the
three key variants for the date makes the status booked, for every global
settings value — in particular on weekly-closure days, holidays and
Saturdays. -/
theorem getStatus_booked_overrides (g : GlobalSettings) (bike : Bike) (date : Date)
    (m : List (String × Bool)) (h1 : bike.isLoading = false)
    (h2 : bike.bookings = some m) (h3 : specBookedOn m date) :
    getStatus g bike date = Status.booked := by
  have hb : isBooked m (dateKey date) = true := (isBooked_iff m date).mpr h3
  simp [getStatus, h1, h2, hb]

theorem getStatus_booked_overrides_witness :
    getStatus ⟨[6], []⟩ (demoBike [] (some [("2026/02/07_end", true)]) false)
      ⟨2026, 2, 7, 6⟩ = Status.booked :=
  getStatus_booked_overrides ⟨[6], []⟩
    (demoBike [] (some [("2026/02/07_end", true)]) false) ⟨2026, 2, 7, 6⟩
    [("2026/02/07_end", true)] rfl rfl (Or.inr (Or.inr (by decide)))

theorem getPriceForDuration_nonneg_witness :
    0 ≤ getPriceForDuration (demoBike [⟨some 1, some 6, 110⟩, ⟨none, none, 50⟩] none true) 4 :=
  getPriceForDuration_nonneg (demoBike [⟨some 1, some 6, 110⟩, ⟨none, none, 50⟩] none true) 4
    (by norm_num) (by decide)

/-- C6: with a non-empty selected-dates set the filter keeps exactly the
units with at least one rendered selected date classifying as available
or half; with an empty selection every unit is kept; sorting does not
change which units appear. -/
theorem filteredBikes_spec (g : GlobalSettings) (bikes : List Bike)
    (dates : List Date) (selected : List String) :
    (selected = [] → filteredBikes g bikes dates selected = bikes) ∧
    (selected ≠ [] → ∀ b, b ∈ filteredBikes g bikes dates selected ↔
      b ∈ bikes ∧ ∃ date ∈ dates, filterDateKey date ∈ selected ∧
        (getStatus g b date = Status.available ∨ getStatus g b date = Status.half)) ∧
    (∀ sortOrder duration b,
      b ∈ sortedBikes g bikes dates selected sortOrder duration ↔
        b ∈ filteredBikes g bikes dates selected) := by
  refine ⟨fun h => by simp [filteredBikes, h], fun h b => ?_, fun so dur b => ?_⟩
  · have hne : selected.isEmpty = false := by
      cases selected with
      | nil => exact absurd rfl h
      | cons x xs => simp
    simp [filteredBikes, hne, List.mem_filter, qualifiesOnSelectedDates,
      List.any_eq_true]
  · simp [sortedBikes, List.mem_mergeSort]

theorem filteredBikes_spec_witness :
    filteredBikes ⟨[0], []⟩ [demoBike [] (some []) false] [] [] =
      [demoBike [] (some []) false] :=
  (filteredBikes_spec ⟨[0], []⟩ [demoBike [] (some []) false] [] []).1 rfl

/-- C7: under the ascending-price directive the sort is stable — a pair of
units with equal computed price keeps its relative order from the list
being sorted — and the comparison is the numeric order on the computed
prices. -/
theorem sortedBikes_asc_stable (g : GlobalSettings) (bikes : List Bike)
    (dates : List Date) (selected : List String) (duration : Int) (a b : Bike)
    (hprice : getPriceForDuration a duration = getPriceForDuration b duration)
    (hpair : List.Sublist [a, b] (filteredBikes g bikes dates selected)) :
    List.Sublist [a, b] (sortedBikes g bikes dates selected "asc" duration) := by
  unfold sortedBikes
  refine List.pair_sublist_mergeSort ?_ ?_ ?_ hpair
  · intro x y z hxy hyz
    simp [bikeLe] at hxy hyz ⊢
    exact le_trans hxy hyz
  · intro x y
    simp [bikeLe]
    exact le_total _ _
  · simp [bikeLe, hprice]

theorem sortedBikes_asc_stable_witness :
    List.Sublist
      [demoBike [] (some []) false, demoBike2 [] (some []) false]
      (sortedBikes ⟨[0], []⟩
        [demoBike [] (some []) false, demoBike2 [] (some []) false]
        [] [] "asc" 1) :=
  sortedBikes_asc_stable ⟨[0], []⟩
    [demoBike [] (some []) false, demoBike2 [] (some []) false]
    [] [] 1 _ _ rfl
    (by simp [filteredBikes])

/-- C10: a unit still loading (or with absent booking data) never counts
as available or half on any date, so any non-empty date selection filters
it out of the displayed list. -/
theorem sortedBikes_excludes_loading (g : GlobalSettings) (bikes : List Bike)
    (dates : List Date) (selected : List String) (sortOrder : String)
    (duration : Int) (bike : Bike)
    (hl : bike.isLoading = true ∨ bike.bookings = none)
    (hsel : selected ≠ []) :
    bike ∉ sortedBikes g bikes dates selected sortOrder duration := by
  intro hmem
  rw [sortedBikes, List.mem_mergeSort] at hmem
  have hne : selected.isEmpty = false := by
    cases selected with
    | nil => exact absurd rfl hsel
    | cons x xs => simp
  rw [filteredBikes] at hmem
  simp only [hne, Bool.false_eq_true, if_false] at hmem
  have hq := List.of_mem_filter hmem
  rw [qualifiesOnSelectedDates, List.any_eq_true] at hq
  obtain ⟨date, _, hcond⟩ := hq
  rw [getStatus_eq_loading g bike date hl] at hcond
  simp at hcond

lemma dedupGo_append (im : List (String × String)) (seen : List String)
    (xs ys : List (SrcProduct × String × VariantData)) :
    dedupGo im seen (xs ++ ys) =
      ((dedupGo im (dedupGo im seen xs).1 ys).1,
       (dedupGo im seen xs).2 ++ (dedupGo im (dedupGo im seen xs).1 ys).2) := by
  induction xs generalizing seen with
  | nil => simp [dedupGo]
  | cons e rest ih =>
    obtain ⟨p, vid, vd⟩ := e
    by_cases hm : vid ∈ seen <;> simp [dedupGo, hm, ih]

lemma extractVariants_eq (im : List (String × String)) (p : SrcProduct)
    (seen : List String) (entries : List (String × VariantData)) :
    extractVariants im p seen entries =
      dedupGo im seen
        ((entries.filter fun e => !(e.1 == "product")).map fun e => (p, e.1, e.2)) := by
  induction entries generalizing seen with
  | nil => simp [extractVariants, dedupGo]
  | cons e rest ih =>
    obtain ⟨vid, vd⟩ := e
    cases hp : (vid == "product") with
    | true => simp [extractVariants, hp, ih, List.filter_cons]
    | false =>
      by_cases hm : vid ∈ seen <;>
        simp [extractVariants, hp, hm, ih, List.filter_cons, dedupGo]

lemma extractLoop_eq (im : List (String × String)) (ps : List SrcProduct)
    (seen : List String) :
    extractLoop im seen ps = (dedupGo im seen (flattenVariants ps)).2 := by
  induction ps generalizing seen with
  | nil => simp [extractLoop, flattenVariants, dedupGo]
  | cons p ps ih =>
    rw [extractLoop, extractVariants_eq]
    have hfl : flattenVariants (p :: ps) =
        ((p.variants.filter fun e => !(e.1 == "product")).map fun e => (p, e.1, e.2)) ++
          flattenVariants ps := by
      simp [flattenVariants]
    rw [hfl, dedupGo_append, ih]

lemma extractBikeMetadata_eq (ps : List SrcProduct) (im : List (String × String)) :
    extractBikeMetadata ps im = (dedupGo im [] (flattenVariants ps)).2 :=
  extractLoop_eq im ps []

lemma dedupGo_mem_not_seen (im : List (String × String))
    (l : List (SrcProduct × String × VariantData)) :
    ∀ seen b, b ∈ (dedupGo im seen l).2 → b.variantId ∉ seen := by
  induction l with
  | nil => simp [dedupGo]
  | cons e rest ih =>
    obtain ⟨p, vid, vd⟩ := e
    intro seen b hb
    by_cases hm : vid ∈ seen
    · rw [dedupGo, if_pos hm] at hb
      exact ih seen b hb
    · rw [dedupGo, if_neg hm] at hb
      rcases List.mem_cons.mp hb with hb | hb
      · rw [hb]
        exact hm
      · have := ih (vid :: seen) b hb
        exact fun hmem => this (List.mem_cons_of_mem _ hmem)

lemma dedupGo_nodup (im : List (String × String))
    (l : List (SrcProduct × String × VariantData)) :
    ∀ seen, ((dedupGo im seen l).2.map (fun b => b.variantId)).Nodup := by
  induction l with
  | nil => simp [dedupGo]
  | cons e rest ih =>
    obtain ⟨p, vid, vd⟩ := e
    intro seen
    by_cases hm : vid ∈ seen
    · rw [dedupGo, if_pos hm]
      exact ih seen
    · rw [dedupGo, if_neg hm]
      refine List.nodup_cons.mpr ⟨?_, ih (vid :: seen)⟩
      intro hmem
      obtain ⟨b, hb, hvb⟩ := List.mem_map.mp hmem
      have := dedupGo_mem_not_seen im rest (vid :: seen) b hb
      exact this (by rw [hvb]; exact List.mem_cons_self _ _)

lemma dedupGo_filter_first (im : List (String × String))
    (l : List (SrcProduct × String × VariantData)) :
    ∀ seen (q : SrcProduct × String × VariantData), q.2.1 ∉ seen →
      l.find? (fun e => e.2.1 == q.2.1) = some q →
      (dedupGo im seen l).2.filter (fun b => b.variantId == q.2.1) =
        [mkBike im q.1 q.2.1 q.2.2] := by
  induction l with
  | nil =>
    intro seen q _ h
    simp [List.find?] at h
  | cons e rest ih =>
    obtain ⟨p, vid, vd⟩ := e
    intro seen q hq hfind
    cases hb : (vid == q.2.1) with
    | true =>
      have heq : (p, vid, vd) = q := by
        rw [List.find?_cons_of_pos rest hb] at hfind
        exact Option.some.inj hfind
      obtain ⟨q1, q2, q3⟩ := q
      injection heq with h1 h23
      injection h23 with h2 h3
      subst h1
      subst h2
      subst h3
      rw [dedupGo, if_neg hq]
      rw [List.filter_cons_of_pos (by simp [mkBike])]
      have hrest : ((dedupGo im (vid :: seen) rest).2.filter
          (fun b => b.variantId == vid)) = [] := by
        refine List.filter_eq_nil_iff.mpr fun b hb2 => ?_
        have := dedupGo_mem_not_seen im rest (vid :: seen) b hb2
        simp only [beq_iff_eq]
        intro hvb
        exact this (by rw [hvb]; exact List.mem_cons_self _ _)
      rw [hrest]
    | false =>
      have hfind' : rest.find? (fun e => e.2.1 == q.2.1) = some q := by
        rw [List.find?_cons_of_neg rest (by simp [hb])] at hfind
        exact hfind
      have hne : q.2.1 ≠ vid := by
        intro hh
        rw [hh] at hb
        simp at hb
      by_cases hm : vid ∈ seen
      · rw [dedupGo, if_pos hm]
        exact ih seen q hq hfind'
      · rw [dedupGo, if_neg hm]
        rw [List.filter_cons_of_neg (by simp [mkBike, hb])]
        refine ih (vid :: seen) q ?_ hfind'
        intro hmem
        rcases List.mem_cons.mp hmem with hmem | hmem
        · exact hne hmem
        · exact hq hmem

/-- C8: the constructed fleet list has pairwise-distinct variant ids, and
for any variant id occurring in the source (first eligible occurrence
`q` in source order), the list contains exactly the unit built from that
first occurrence — later duplicates are discarded. -/
theorem extractBikeMetadata_dedup (ps : List SrcProduct)
    (imageMap : List (String × String)) :
    (((extractBikeMetadata ps imageMap).map (fun b => b.variantId)).Nodup) ∧
    (∀ q : SrcProduct × String × VariantData,
      (flattenVariants ps).find? (fun e => e.2.1 == q.2.1) = some q →
      (extractBikeMetadata ps imageMap).filter (fun b => b.variantId == q.2.1) =
        [mkBike imageMap q.1 q.2.1 q.2.2]) := by
  constructor
  · rw [extractBikeMetadata_eq]
    exact dedupGo_nodup imageMap (flattenVariants ps) []
  · intro q hq
    rw [extractBikeMetadata_eq]
    exact dedupGo_filter_first imageMap (flattenVariants ps) [] q (by simp) hq

theorem extractBikeMetadata_dedup_witness :
    (extractBikeMetadata [srcP1, srcP2] []).filter (fun b => b.variantId == "v1") =
      [mkBike [] srcP1 "v1" ⟨[⟨some 1, some 6, 110⟩], 2⟩] :=
  (extractBikeMetadata_dedup [srcP1, srcP2] []).2
    (srcP1, "v1", ⟨[⟨some 1, some 6, 110⟩], 2⟩) (by decide)

theorem sortedBikes_excludes_loading_witness :
    demoBike [] none true ∉
      sortedBikes ⟨[0], []⟩ [demoBike [] none true] [] ["2026-02-07"] "asc" 1 :=
  sortedBikes_excludes_loading ⟨[0], []⟩ [demoBike [] none true] [] ["2026-02-07"]
    "asc" 1 (demoBike [] none true) (Or.inl rfl) (by simp)

end XpertMoto
